import Mathlib

/-!
Verification development for the podcast aggregator (`aggregator.py`).

The file shallowly embeds the core pipeline of the source:
`fetch_and_store_podcasts` (fetch → size check → parse → per-entry upsert →
source-row upsert, inside one SQLite transaction) and `find_podcast_rss`
(candidate generation from `<link>` tags plus guessed paths, then per-candidate
validation).  External collaborators (`requests`, `feedparser`, BeautifulSoup,
`urllib.parse.urljoin`, SQLite) are modelled from their documented behaviour at
exactly the granularity the source uses them.
-/

/-! ## String helpers

Structurally recursive character-list versions of the string operations the
model needs, so that every definition evaluates by kernel reduction. -/

/-- `listIsPrefixOf pat l` is true when `pat` is a prefix of `l`. -/
def listIsPrefixOf : List Char → List Char → Bool
  | [], _ => true
  | _ :: _, [] => false
  | a :: as, b :: bs => a == b && listIsPrefixOf as bs

/-- `strStartsWith s pat`: `s` starts with `pat` (Python `str.startswith`). -/
def strStartsWith (s pat : String) : Bool :=
  listIsPrefixOf pat.data s.data

/-- `listContainsSub pat hay`: `pat` occurs as a contiguous sublist of `hay`. -/
def listContainsSub (pat : List Char) : List Char → Bool
  | [] => pat.isEmpty
  | c :: rest => listIsPrefixOf pat (c :: rest) || listContainsSub pat rest

/-- `strContains s pat`: `pat` occurs as a substring of `s` (case-sensitive,
like Python `re.search` with a literal pattern). -/
def strContains (s pat : String) : Bool :=
  listContainsSub pat.data s.data

/-- First component of splitting `hay` at the first occurrence of `pat`:
`some (before, after)` when `pat` occurs, `none` otherwise. -/
def splitFirst (pat : List Char) : List Char → Option (List Char × List Char)
  | [] => if pat.isEmpty then some ([], []) else none
  | c :: rest =>
    if listIsPrefixOf pat (c :: rest) then some ([], (c :: rest).drop pat.length)
    else
      match splitFirst pat rest with
      | some (pre, post) => some (c :: pre, post)
      | none => none

/-! ## urljoin (collaborator model)

Modelled from the spec: the source resolves candidate hrefs with
`urllib.parse.urljoin` (not itself part of the repository).  The model follows
RFC 3986 reference resolution for the cases the aggregator exercises: absolute
references, network-path (`//`), absolute-path (`/...`) and relative
references against an `http(s)://host/path` base. -/

/-- Split a URL into scheme and scheme-less remainder at the first `://`.
A base with no `://` is treated as having an empty scheme. -/
def schemeSplit (base : String) : String × String :=
  match splitFirst "://".data base.data with
  | some (pre, post) => (String.mk pre, String.mk post)
  | none => ("", base)

/-- Characters of the authority: everything up to the first `/`. -/
def takeUntilSlash : List Char → List Char
  | [] => []
  | c :: rest => if c == '/' then [] else c :: takeUntilSlash rest

/-- `scheme://authority` of an absolute base URL. -/
def originOf (base : String) : String :=
  let sp := schemeSplit base
  sp.1 ++ "://" ++ String.mk (takeUntilSlash sp.2.data)

/-- Keep everything up to and including the last `/` (the "directory" part). -/
def dropAfterLastSlash (l : List Char) : List Char :=
  ((l.reverse.dropWhile (fun c => c != '/')).reverse)

/-- Modelled from the spec: `urllib.parse.urljoin base href`. -/
def urljoin (base href : String) : String :=
  if href = "" then base
  else if strContains href "://" then href
  else if strStartsWith href "//" then (schemeSplit base).1 ++ ":" ++ href
  else if strStartsWith href "/" then originOf base ++ href
  else
    let sp := schemeSplit base
    if sp.2.data.contains '/' then
      sp.1 ++ "://" ++ String.mk (dropAfterLastSlash sp.2.data) ++ href
    else
      sp.1 ++ "://" ++ sp.2 ++ "/" ++ href

/-! ## Parsed-feed data model (feedparser collaborator)

`feedparser.parse` output at the granularity the source reads it:
the `bozo` flag, and per entry `id`/`guid`/`title`/`summary` (absent keys are
`none`), the enclosure list (`type` defaulted to `''` by the source's
`enc.get('type', '')`, `href` a string) and `published_parsed`
(a struct-time; absent when the feed carries no date). -/

/-- One enclosure of a feed entry: `href` and declared MIME `type`. -/
structure Enclosure where
  href : String
  type : String
deriving DecidableEq, Repr

/-- A broken-down `published_parsed[:6]` timestamp. -/
structure TimeTuple where
  year : Nat
  month : Nat
  day : Nat
  hour : Nat
  minute : Nat
  second : Nat
deriving DecidableEq, Repr

/-- One parsed feed entry as the source accesses it. -/
structure Entry where
  id : Option String
  guid : Option String
  title : Option String
  summary : Option String
  enclosures : List Enclosure
  published : Option TimeTuple
deriving DecidableEq, Repr

/-- A parsed feed: the `bozo` flag and the entry list. -/
structure Feed where
  bozo : Bool
  entries : List Entry
deriving DecidableEq, Repr

/-- Outcome of `requests.get` on a URL: a network/HTTP failure (exception or
`raise_for_status`), or a body characterised by its byte length and the feed
`feedparser.parse` yields on it. -/
inductive FetchOutcome where
  | fail : FetchOutcome
  | ok : Nat → Feed → FetchOutcome
deriving DecidableEq, Repr

/-! ## Database model (SQLite collaborator)

The two tables created by `init_db`; rows in rowid order.  `INSERT OR
REPLACE` on a UNIQUE column deletes every conflicting row and appends the new
one (the new row gets a fresh rowid, hence goes last). -/

/-- One row of the `podcasts` table (`guid` is UNIQUE). -/
structure EpisodeRow where
  title : String
  description : String
  audio_url : String
  guid : String
  feed_url : String
  pub_date : String
deriving DecidableEq, Repr

/-- One row of the `rss_sources` table (`url` is UNIQUE). -/
structure SourceRow where
  url : String
  last_updated : String
deriving DecidableEq, Repr

/-- The store: both tables. -/
structure DB where
  podcasts : List EpisodeRow
  rss_sources : List SourceRow
deriving DecidableEq, Repr

/-- The store right after `init_db` on a fresh file. -/
def emptyDB : DB := ⟨[], []⟩

/-- `INSERT OR REPLACE INTO podcasts` keyed by the UNIQUE `guid` column. -/
def upsertEpisodeRows (row : EpisodeRow) (l : List EpisodeRow) : List EpisodeRow :=
  l.filter (fun r => r.guid != row.guid) ++ [row]

/-- The `podcasts` upsert as a statement over the whole store. -/
def upsertEpisode (row : EpisodeRow) (db : DB) : DB :=
  { db with podcasts := upsertEpisodeRows row db.podcasts }

/-- `INSERT OR REPLACE INTO rss_sources` keyed by the UNIQUE `url` column. -/
def upsertSourceRows (url now : String) (l : List SourceRow) : List SourceRow :=
  l.filter (fun s => s.url != url) ++ [⟨url, now⟩]

/-- The `rss_sources` upsert as a statement over the whole store. -/
def upsertSource (url now : String) (db : DB) : DB :=
  { db with rss_sources := upsertSourceRows url now db.rss_sources }

/-! ## Feed Ingestor: `fetch_and_store_podcasts` (aggregator.py lines 71-138) -/

/-- `MAX_FEED_SIZE = 15000000` (line 15). -/
def MAX_FEED_SIZE : Nat := 15000000

/-- Python `a or b` over optional strings: the empty string is falsy. -/
def pyOrStr (a b : Option String) : Option String :=
  match a with
  | some s => if s ≠ "" then some s else b
  | none => b

/-- Digits of `n` (fuel-driven so the recursion is structural). -/
def natDigits : Nat → Nat → List Char
  | 0, _ => []
  | fuel + 1, n =>
    if n < 10 then [Char.ofNat (48 + n % 10)]
    else natDigits fuel (n / 10) ++ [Char.ofNat (48 + n % 10)]

/-- Decimal rendering of `n`, zero-padded to `w` digits. -/
def padNat (w n : Nat) : String :=
  let ds := natDigits (n + 1) n
  String.mk (List.replicate (w - ds.length) '0' ++ ds)

/-- Modelled from the spec: `datetime(*t[:6]).isoformat()` — the `datetime`
collaborator's ISO 8601 rendering of a whole-second timestamp. -/
def isoformat (t : TimeTuple) : String :=
  padNat 4 t.year ++ "-" ++ padNat 2 t.month ++ "-" ++ padNat 2 t.day ++ "T" ++
    padNat 2 t.hour ++ ":" ++ padNat 2 t.minute ++ ":" ++ padNat 2 t.second

/-- Lines 98-102: scan the enclosure list and keep the `href` of the first
enclosure whose declared type starts with `audio/` (the loop `break`s there,
even when that `href` is empty). -/
def findAudioUrl : List Enclosure → Option String
  | [] => none
  | enc :: rest =>
    if strStartsWith enc.type "audio/" then some enc.href else findAudioUrl rest

/-- Lines 91-125, one loop iteration: turn an entry into the row the source
inserts, or `none` when the entry is skipped (`guid = entry.get('id') or
entry.get('guid'); if not guid: continue`, then `if not audio_url: continue`).
`nowIso` is `datetime.now().isoformat()` at ingestion time. -/
def entryToRow (feed_url nowIso : String) (e : Entry) : Option EpisodeRow :=
  match pyOrStr e.id e.guid with
  | none => none
  | some g =>
    if g = "" then none
    else
      match findAudioUrl e.enclosures with
      | none => none
      | some a =>
        if a = "" then none
        else
          some
            { title := e.title.getD "No Title"
              description := e.summary.getD ""
              audio_url := a
              guid := g
              feed_url := feed_url
              pub_date :=
                match e.published with
                | some t => isoformat t
                | none => nowIso }

/-- The SQL statements one ingest run executes inside its transaction, in
order: one podcasts upsert per surviving entry (lines 114-125), then the
rss_sources upsert (lines 128-131). -/
def ingestStmts (feed : Feed) (feed_url nowIso : String) : List (DB → DB) :=
  (feed.entries.filterMap (entryToRow feed_url nowIso)).map upsertEpisode
    ++ [upsertSource feed_url nowIso]

/-- Execute the statements of one transaction in order.  `fails k = true`
means the `k`-th `cursor.execute` raises `sqlite3.Error`; the surrounding
`with sqlite3.connect(...)` block then rolls the transaction back, so the
run yields no new store (`none`). -/
def execStmts : List (DB → DB) → (Nat → Bool) → Nat → DB → Option DB
  | [], _, _, db => some db
  | s :: rest, fails, k, db =>
    if fails k then none else execStmts rest fails (k + 1) (s db)

/-- Lines 71-138, `fetch_and_store_podcasts(feed_url)`: fetch (failure or
`raise_for_status` → caught, `False`), reject bodies over `MAX_FEED_SIZE`
(lines 79-82), reject `bozo` parses (lines 85-87), then run the transaction;
a storage failure is caught by the outer `except` after the rollback, again
returning `False`.  Returns the store after the call and the boolean result. -/
def fetch_and_store_podcasts (world : String → FetchOutcome) (fails : Nat → Bool)
    (nowIso : String) (feed_url : String) (db : DB) : DB × Bool :=
  match world feed_url with
  | .fail => (db, false)
  | .ok size feed =>
    if size > MAX_FEED_SIZE then (db, false)
    else if feed.bozo then (db, false)
    else
      match execStmts (ingestStmts feed feed_url nowIso) fails 0 db with
      | none => (db, false)
      | some db' => (db', true)

/-- One ingest invocation: its network world, storage-failure oracle,
`datetime.now().isoformat()` reading, and target feed URL. -/
structure IngestOp where
  world : String → FetchOutcome
  fails : Nat → Bool
  now : String
  url : String

/-- Run a sequence of ingest operations against a store. -/
def runIngests (ops : List IngestOp) (db : DB) : DB :=
  ops.foldl (fun d o => (fetch_and_store_podcasts o.world o.fails o.now o.url d).1) db

/-! ## Feed Discoverer: `find_podcast_rss` (aggregator.py lines 141-181) -/

/-- A `<link>` element of the fetched page as BeautifulSoup exposes it:
its declared `type` attribute and its `href`. -/
structure LinkTag where
  type : String
  href : String
deriving DecidableEq, Repr

/-- Line 151's attribute filter: `re.compile(r'(rss|xml|atom)')` searched
against the `type` attribute value — a case-sensitive substring match. -/
def linkTypeMatches (t : String) : Bool :=
  strContains t "rss" || strContains t "xml" || strContains t "atom"

/-- Line 155: the guessed well-known feed paths, in fixed order. -/
def common_paths : List String := ["/feed", "/rss", "/podcast.xml", "/episodes.xml"]

/-- Lines 150-157: candidate generation.  `links` is the page's `<link>`
element list in document order (the HTML-parse collaborator's output):
matching links resolved against `url`, then the four guessed paths. -/
def find_podcast_rss_candidates (url : String) (links : List LinkTag) : List String :=
  (links.filter (fun l => linkTypeMatches l.type)).map (fun l => urljoin url l.href)
    ++ common_paths.map (fun p => urljoin url p)

/-- Lines 168-170's generator, flattened: one boolean per (entry, enclosure)
pair, `True` when the enclosure's declared type starts with `audio/`. -/
def audioFlags (feed : Feed) : List Bool :=
  feed.entries.flatMap (fun e => e.enclosures.map (fun enc => strStartsWith enc.type "audio/"))

/-- A Python value at an `any(...)` call site: either a consumed iterable of
booleans, or a bare (non-iterable) boolean. -/
inductive PyValue where
  | iter : List Bool → PyValue
  | boolVal : Bool → PyValue
deriving DecidableEq, Repr

/-- Python `any`: disjunction over an iterable; applied to a non-iterable
boolean it raises `TypeError` (`none`). -/
def pyAny : PyValue → Option Bool
  | .iter bs => some (bs.any (fun b => b))
  | .boolVal _ => none

/-- Lines 167-171: `has_audio = any(any(flag for entry ... for enc ...))`.
The inner `any` consumes the whole two-level generator into a single boolean;
the outer `any` is then applied to that boolean, which is not iterable, so
the expression raises `TypeError` (`none`). -/
def hasAudioExpr (feed : Feed) : Option Bool :=
  match pyAny (.iter (audioFlags feed)) with
  | some inner => pyAny (.boolVal inner)
  | none => none

/-- What one iteration of the candidate loop (lines 161-176) does with a
candidate: the fetch raised (skip at line 163-164), or the body was parsed by
`feedparser` but the candidate was not appended, or the candidate was
appended to `valid_podcast_feeds`. -/
inductive CandidateResult where
  | fetchFailed : CandidateResult
  | parsedDropped : CandidateResult
  | kept : CandidateResult
deriving DecidableEq, Repr

/-- Lines 161-176, one loop iteration.  A fetched body is parsed (no size
check); when the parse is not `bozo` and the entry list non-empty, line 167's
`any(any(...))` is evaluated — its `TypeError` is caught by the `except` at
line 174 and the candidate is dropped; `bozo` or entry-less parses are simply
not appended. -/
def processCandidate : FetchOutcome → CandidateResult
  | .fail => .fetchFailed
  | .ok _size feed =>
    if !feed.bozo && !feed.entries.isEmpty then
      match hasAudioExpr feed with
      | none => .parsedDropped
      | some b => if b then .kept else .parsedDropped
    else .parsedDropped

/-- Lines 141-181, `find_podcast_rss(url)` given the page's parsed `<link>`
elements: the candidates whose loop iteration keeps them, in candidate
order. -/
def find_podcast_rss (world : String → FetchOutcome) (url : String)
    (links : List LinkTag) : List String :=
  (find_podcast_rss_candidates url links).filter
    (fun u => processCandidate (world u) == CandidateResult.kept)


/-! ## Upsert theory: closed form of a batch of episode upserts -/

/-- Some row of `rs` carries guid `g`. -/
def guidAmong (rs : List EpisodeRow) (g : String) : Bool :=
  rs.any (fun r => r.guid == g)

/-- For each guid keep only the last row of `rs` carrying it, ordered by last
occurrence. -/
def dedupLast : List EpisodeRow → List EpisodeRow
  | [] => []
  | r :: rs => if guidAmong rs r.guid then dedupLast rs else r :: dedupLast rs

/-- Apply a batch of episode upserts to the `podcasts` table, in order. -/
def applyEpisodes (rs l : List EpisodeRow) : List EpisodeRow :=
  rs.foldl (fun acc r => upsertEpisodeRows r acc) l

/-- Apply a statement list to the store, in order. -/
def applyStmts (stmts : List (DB → DB)) (db : DB) : DB :=
  stmts.foldl (fun d s => s d) db

/-- No two rows of the `podcasts` table share a guid. -/
def GuidUnique (l : List EpisodeRow) : Prop :=
  l.Pairwise (fun a b => a.guid ≠ b.guid)

/-- No two rows of the `rss_sources` table share a url. -/
def UrlUnique (l : List SourceRow) : Prop :=
  l.Pairwise (fun a b => a.url ≠ b.url)

/-- Every stored episode row has a non-empty guid and a non-empty audio URL. -/
def RowsOk (db : DB) : Prop :=
  ∀ r ∈ db.podcasts, r.guid ≠ "" ∧ r.audio_url ≠ ""

/-! ## Concrete fixtures (feeds, worlds, stores used as test inputs) -/

/-- An mp3 enclosure. -/
def audioEnc : Enclosure := ⟨"http://ex.com/ep1.mp3", "audio/mpeg"⟩

/-- A valid entry that carries no published date. -/
def entryA : Entry := ⟨some "g1", none, some "Ep 1", some "first", [audioEnc], none⟩

/-- A valid entry with an explicit published date. -/
def entryB : Entry :=
  ⟨some "g2", none, some "Ep 2", none, [⟨"http://ex.com/ep2.mp3", "audio/ogg"⟩],
    some ⟨2024, 1, 2, 3, 4, 5⟩⟩

/-- A one-entry feed whose entry has no published date. -/
def feedOne : Feed := ⟨false, [entryA]⟩

/-- A two-entry feed (both entries valid). -/
def feedTwoEntries : Feed := ⟨false, [entryA, entryB]⟩

/-- A feed whose single entry carries a published date. -/
def feedDated : Feed := ⟨false, [entryB]⟩

/-- A well-formed feed with no entries at all. -/
def emptyFeed : Feed := ⟨false, []⟩

/-- Network where only `http://f` resolves, to `feedOne`. -/
def worldOne : String → FetchOutcome :=
  fun u => if u = "http://f" then .ok 100 feedOne else .fail

/-- Network where only `http://g` resolves, to `feedTwoEntries`. -/
def worldTwo : String → FetchOutcome :=
  fun u => if u = "http://g" then .ok 200 feedTwoEntries else .fail

/-- Network where only `http://d` resolves, to `feedDated`. -/
def worldDated : String → FetchOutcome :=
  fun u => if u = "http://d" then .ok 80 feedDated else .fail

/-- Network where only `http://e` resolves, to the entry-less `emptyFeed`. -/
def worldEmptyFeed : String → FetchOutcome :=
  fun u => if u = "http://e" then .ok 50 emptyFeed else .fail

/-- Network where only `https://ex.com/feed` resolves, to a body one byte over
the 15 MB ceiling that still parses to the valid `feedOne`. -/
def worldBig : String → FetchOutcome :=
  fun u => if u = "https://ex.com/feed" then .ok (MAX_FEED_SIZE + 1) feedOne else .fail

/-- The no-storage-failure oracle. -/
def noFail : Nat → Bool := fun _ => false

/-- Storage oracle under which the second SQL statement of the batch raises. -/
def failSecond : Nat → Bool := fun k => k == 1

/-- Two identical explicit feed `<link>` tags. -/
def twinLinks : List LinkTag :=
  [⟨"application/rss+xml", "/a.xml"⟩, ⟨"application/rss+xml", "/a.xml"⟩]

/-- One ingest invocation of `http://f` against `worldOne`. -/
def opOne : IngestOp := ⟨worldOne, noFail, "2025-01-01T10:00:00", "http://f"⟩

/-- The row `fetch_and_store_podcasts` writes for `entryA` from `http://f`. -/
def rowOne : EpisodeRow :=
  ⟨"Ep 1", "first", "http://ex.com/ep1.mp3", "g1", "http://f", "2025-01-01T10:00:00"⟩

theorem applyEpisodes_closed (rs : List EpisodeRow) :
    ∀ l, applyEpisodes rs l =
      l.filter (fun x => !guidAmong rs x.guid) ++ dedupLast rs := by
  induction rs with
  | nil =>
    intro l
    show l = l.filter (fun x => !guidAmong [] x.guid) ++ dedupLast []
    simp [guidAmong, dedupLast]
  | cons r rs ih =>
    intro l
    have h0 : applyEpisodes (r :: rs) l = applyEpisodes rs (upsertEpisodeRows r l) := rfl
    rw [h0, ih]
    simp only [upsertEpisodeRows]
    rw [List.filter_append, List.filter_filter]
    have hpred : ∀ x ∈ l,
        ((!guidAmong rs x.guid) && (x.guid != r.guid))
          = (!guidAmong (r :: rs) x.guid) := by
      intro x _
      have hc : (x.guid == r.guid) = (r.guid == x.guid) := Bool.beq_comm
      simp only [guidAmong, List.any_cons, Bool.not_or, bne, hc]
      exact Bool.and_comm _ _
    rw [List.filter_congr hpred]
    cases h : guidAmong rs r.guid with
    | true => simp [dedupLast, h]
    | false => simp [dedupLast, h, List.append_assoc]

theorem mem_dedupLast_among (rs : List EpisodeRow) :
    ∀ x ∈ dedupLast rs, guidAmong rs x.guid = true := by
  induction rs with
  | nil => intro x hx; cases hx
  | cons r rs ih =>
    intro x hx
    cases h : guidAmong rs r.guid with
    | true =>
      rw [dedupLast, h] at hx
      simp only [if_true] at hx
      have := ih x hx
      simp only [guidAmong, List.any_cons, Bool.or_eq_true]
      right
      simpa [guidAmong] using this
    | false =>
      rw [dedupLast, h] at hx
      simp only [Bool.false_eq_true, if_false] at hx
      simp only [guidAmong, List.any_cons, Bool.or_eq_true]
      rcases List.mem_cons.mp hx with rfl | hx'
      · left; simp
      · right; simpa [guidAmong] using ih x hx'

theorem mem_dedupLast_sub (rs : List EpisodeRow) :
    ∀ x ∈ dedupLast rs, x ∈ rs := by
  induction rs with
  | nil => intro x hx; cases hx
  | cons r rs ih =>
    intro x hx
    cases h : guidAmong rs r.guid with
    | true =>
      rw [dedupLast, h] at hx
      simp only [if_true] at hx
      exact List.mem_cons_of_mem r (ih x hx)
    | false =>
      rw [dedupLast, h] at hx
      simp only [Bool.false_eq_true, if_false] at hx
      rcases List.mem_cons.mp hx with rfl | hx'
      · exact List.mem_cons_self x rs
      · exact List.mem_cons_of_mem r (ih x hx')

theorem dedupLast_pairwise (rs : List EpisodeRow) :
    (dedupLast rs).Pairwise (fun a b => a.guid ≠ b.guid) := by
  induction rs with
  | nil => exact List.Pairwise.nil
  | cons r rs ih =>
    cases h : guidAmong rs r.guid with
    | true =>
      rw [dedupLast, h]
      simpa using ih
    | false =>
      rw [dedupLast, h]
      simp only [Bool.false_eq_true, if_false]
      refine List.Pairwise.cons ?_ ih
      intro b hb hEq
      have hb' := mem_dedupLast_among rs b hb
      rw [← hEq, h] at hb'
      exact Bool.noConfusion hb'

theorem applyEpisodes_guidUnique {l : List EpisodeRow} (hl : GuidUnique l)
    (rs : List EpisodeRow) : GuidUnique (applyEpisodes rs l) := by
  rw [applyEpisodes_closed]
  unfold GuidUnique at hl ⊢
  rw [List.pairwise_append]
  refine ⟨hl.sublist (List.filter_sublist l), dedupLast_pairwise rs, ?_⟩
  intro a ha b hb hEq
  have ha' : (!guidAmong rs a.guid) = true := (List.mem_filter.mp ha).2
  have hb' := mem_dedupLast_among rs b hb
  rw [← hEq] at hb'
  rw [hb'] at ha'
  exact Bool.noConfusion ha'

theorem upsertSourceRows_urlUnique {l : List SourceRow} (hl : UrlUnique l)
    (url now : String) : UrlUnique (upsertSourceRows url now l) := by
  unfold UrlUnique at hl ⊢
  unfold upsertSourceRows
  rw [List.pairwise_append]
  refine ⟨hl.sublist (List.filter_sublist l), List.pairwise_singleton _ _, ?_⟩
  intro a ha b hb hEq
  have ha' : (a.url != url) = true := (List.mem_filter.mp ha).2
  rcases List.mem_singleton.mp hb with rfl
  simp only [bne_iff_ne, ne_eq] at ha'
  exact ha' hEq

/-! ## Transaction semantics lemmas -/

theorem execStmts_some_eq :
    ∀ (stmts : List (DB → DB)) (fails : Nat → Bool) (k : Nat) (db db' : DB),
      execStmts stmts fails k db = some db' → db' = applyStmts stmts db := by
  intro stmts
  induction stmts with
  | nil =>
    intro fails k db db' h
    simp only [execStmts, Option.some.injEq] at h
    simpa [applyStmts] using h.symm
  | cons s rest ih =>
    intro fails k db db' h
    simp only [execStmts] at h
    cases hf : fails k with
    | true => rw [hf] at h; simp at h
    | false =>
      rw [hf] at h
      simp only [Bool.false_eq_true, if_false] at h
      exact ih fails (k + 1) (s db) db' h

theorem execStmts_noFail (stmts : List (DB → DB)) (fails : Nat → Bool)
    (hnf : ∀ k, fails k = false) :
    ∀ (k : Nat) (db : DB), execStmts stmts fails k db = some (applyStmts stmts db) := by
  induction stmts with
  | nil => intro k db; rfl
  | cons s rest ih =>
    intro k db
    simp only [execStmts, hnf k, Bool.false_eq_true, if_false]
    exact ih (k + 1) (s db)

theorem execStmts_hasFail :
    ∀ (stmts : List (DB → DB)) (fails : Nat → Bool) (k j : Nat) (db : DB),
      j < stmts.length → fails (k + j) = true → execStmts stmts fails k db = none := by
  intro stmts
  induction stmts with
  | nil =>
    intro fails k j db hj _
    exact absurd hj (Nat.not_lt_zero j)
  | cons s rest ih =>
    intro fails k j db hj hf
    simp only [execStmts]
    cases hk : fails k with
    | true => simp
    | false =>
      simp only [Bool.false_eq_true, if_false]
      cases j with
      | zero => rw [Nat.add_zero] at hf; rw [hf] at hk; exact Bool.noConfusion hk
      | succ j' =>
        have hj' : j' < rest.length := Nat.lt_of_succ_lt_succ (by simpa using hj)
        have harith : k + 1 + j' = k + (j' + 1) := by omega
        exact ih fails (k + 1) j' (s db) hj' (by rw [harith]; exact hf)

theorem applyStmts_episodes (rows : List EpisodeRow) :
    ∀ db : DB, applyStmts (rows.map upsertEpisode) db =
      ⟨applyEpisodes rows db.podcasts, db.rss_sources⟩ := by
  induction rows with
  | nil => intro db; rfl
  | cons r rows ih =>
    intro db
    show applyStmts (rows.map upsertEpisode) (upsertEpisode r db) = _
    rw [ih]
    rfl

theorem applyStmts_ingestStmts (feed : Feed) (url now : String) (db : DB) :
    applyStmts (ingestStmts feed url now) db =
      ⟨applyEpisodes (feed.entries.filterMap (entryToRow url now)) db.podcasts,
        upsertSourceRows url now db.rss_sources⟩ := by
  simp only [ingestStmts, applyStmts, List.foldl_append, List.foldl_cons, List.foldl_nil]
  have h := applyStmts_episodes (feed.entries.filterMap (entryToRow url now)) db
  simp only [applyStmts] at h
  rw [h]
  rfl

/-! ## Shape lemmas for one ingest run -/

theorem ingest_success (world : String → FetchOutcome) (fails : Nat → Bool)
    (now url : String) (db : DB) (size : Nat) (feed : Feed)
    (hw : world url = .ok size feed) (hs : size ≤ MAX_FEED_SIZE) (hb : feed.bozo = false)
    (hnf : ∀ k, fails k = false) :
    fetch_and_store_podcasts world fails now url db =
      (⟨applyEpisodes (feed.entries.filterMap (entryToRow url now)) db.podcasts,
        upsertSourceRows url now db.rss_sources⟩, true) := by
  simp only [fetch_and_store_podcasts, hw]
  rw [if_neg (by omega : ¬ size > MAX_FEED_SIZE), hb]
  simp only [Bool.false_eq_true, if_false]
  rw [execStmts_noFail _ _ hnf 0 db, applyStmts_ingestStmts]

theorem ingest_cases (world : String → FetchOutcome) (fails : Nat → Bool)
    (now url : String) (db : DB) :
    (fetch_and_store_podcasts world fails now url db).1 = db ∨
    ∃ feed : Feed, (fetch_and_store_podcasts world fails now url db).1 =
      ⟨applyEpisodes (feed.entries.filterMap (entryToRow url now)) db.podcasts,
        upsertSourceRows url now db.rss_sources⟩ := by
  unfold fetch_and_store_podcasts
  cases hw : world url with
  | fail => exact Or.inl rfl
  | ok size feed =>
    dsimp only
    by_cases hs : size > MAX_FEED_SIZE
    · left
      rw [if_pos hs]
    · rw [if_neg hs]
      cases hb : feed.bozo with
      | true =>
        left
        rw [if_pos rfl]
      | false =>
        rw [if_neg Bool.false_ne_true]
        cases hex : execStmts (ingestStmts feed url now) fails 0 db with
        | none => exact Or.inl rfl
        | some db' =>
          right
          refine ⟨feed, ?_⟩
          show db' = _
          rw [execStmts_some_eq _ _ _ _ _ hex, applyStmts_ingestStmts]

/-! ## Entry-level soundness and determinism lemmas -/

theorem findAudioUrl_sound :
    ∀ (encs : List Enclosure) (a : String), findAudioUrl encs = some a →
      ∃ enc ∈ encs, strStartsWith enc.type "audio/" = true ∧ enc.href = a := by
  intro encs
  induction encs with
  | nil => intro a h; cases h
  | cons enc rest ih =>
    intro a h
    rw [findAudioUrl] at h
    by_cases ht : strStartsWith enc.type "audio/" = true
    · rw [if_pos ht] at h
      exact ⟨enc, List.mem_cons_self enc rest, ht, (Option.some.injEq _ _).mp h⟩
    · rw [if_neg ht] at h
      obtain ⟨e, he, hty, hhref⟩ := ih a h
      exact ⟨e, List.mem_cons_of_mem enc he, hty, hhref⟩

theorem entryToRow_sound (feed_url nowIso : String) (e : Entry) (row : EpisodeRow)
    (h : entryToRow feed_url nowIso e = some row) :
    row.guid ≠ "" ∧ row.audio_url ≠ "" ∧
      ∃ enc ∈ e.enclosures, strStartsWith enc.type "audio/" = true ∧
        enc.href = row.audio_url := by
  rw [entryToRow] at h
  cases hg : pyOrStr e.id e.guid with
  | none => rw [hg] at h; cases h
  | some g =>
    rw [hg] at h
    dsimp only at h
    by_cases hge : g = ""
    · rw [if_pos hge] at h; cases h
    · rw [if_neg hge] at h
      cases ha : findAudioUrl e.enclosures with
      | none => rw [ha] at h; cases h
      | some a =>
        rw [ha] at h
        dsimp only at h
        by_cases hae : a = ""
        · rw [if_pos hae] at h; cases h
        · rw [if_neg hae] at h
          have hrow := (Option.some.injEq _ _).mp h
          obtain ⟨enc, henc, hty, hhref⟩ := findAudioUrl_sound e.enclosures a ha
          refine ⟨?_, ?_, enc, henc, hty, ?_⟩
          · rw [← hrow]; exact hge
          · rw [← hrow]; exact hae
          · rw [← hrow]; exact hhref

theorem entryToRow_now_indep (feed_url n1 n2 : String) (e : Entry)
    (h : e.published.isSome) :
    entryToRow feed_url n1 e = entryToRow feed_url n2 e := by
  obtain ⟨t, ht⟩ := Option.isSome_iff_exists.mp h
  rw [entryToRow, entryToRow, ht]

theorem filterMap_entryToRow_now_indep (feed_url n1 n2 : String) (entries : List Entry)
    (h : ∀ e ∈ entries, e.published.isSome) :
    entries.filterMap (entryToRow feed_url n1) = entries.filterMap (entryToRow feed_url n2) :=
  List.filterMap_congr (fun e he => entryToRow_now_indep feed_url n1 n2 e (h e he))

/-! ## Idempotence of re-applying the same upsert batch -/

theorem dedupLast_filter_self (rs : List EpisodeRow) :
    (dedupLast rs).filter (fun x => !guidAmong rs x.guid) = [] := by
  rw [List.filter_eq_nil_iff]
  intro x hx
  rw [mem_dedupLast_among rs x hx]
  simp

theorem applyEpisodes_idem (rs l : List EpisodeRow) :
    applyEpisodes rs (applyEpisodes rs l) = applyEpisodes rs l := by
  rw [applyEpisodes_closed, applyEpisodes_closed, List.filter_append,
    dedupLast_filter_self, List.filter_filter]
  have h : ∀ x ∈ l,
      ((!guidAmong rs x.guid) && (!guidAmong rs x.guid)) = (!guidAmong rs x.guid) := by
    intro x _
    exact Bool.and_self _
  rw [List.filter_congr h, List.append_nil]

theorem upsertSourceRows_twice (url n1 n2 : String) (l : List SourceRow) :
    upsertSourceRows url n2 (upsertSourceRows url n1 l) =
      l.filter (fun s => s.url != url) ++ [⟨url, n2⟩] := by
  simp only [upsertSourceRows, List.filter_append, List.filter_filter]
  have h : ∀ x ∈ l, ((x.url != url) && (x.url != url)) = (x.url != url) := by
    intro x _
    exact Bool.and_self _
  rw [List.filter_congr h]
  simp [List.filter_cons]

theorem upsertSourceRows_twice_map (url n1 n2 : String) (l : List SourceRow) :
    upsertSourceRows url n2 (upsertSourceRows url n1 l) =
      (upsertSourceRows url n1 l).map
        (fun s => if s.url == url then ⟨url, n2⟩ else s) := by
  rw [upsertSourceRows_twice]
  simp only [upsertSourceRows, List.map_append]
  have h1 : (l.filter (fun s => s.url != url)).map
      (fun s => if s.url == url then (⟨url, n2⟩ : SourceRow) else s)
        = l.filter (fun s => s.url != url) := by
    conv_rhs => rw [← List.map_id (l.filter (fun s => s.url != url))]
    refine List.map_congr_left ?_
    intro s hs
    have hne : (s.url != url) = true := (List.mem_filter.mp hs).2
    have hnc : ¬(s.url == url) = true := by
      simp only [bne_iff_ne, ne_eq] at hne
      simp only [beq_iff_eq]
      exact hne
    rw [if_neg hnc]
    rfl
  rw [h1]
  simp

/-! ## Invariant preservation across ingest runs -/

theorem applyEpisodes_mem (rs l : List EpisodeRow) :
    ∀ x ∈ applyEpisodes rs l, x ∈ l ∨ x ∈ rs := by
  intro x hx
  rw [applyEpisodes_closed] at hx
  rcases List.mem_append.mp hx with hx' | hx'
  · exact Or.inl (List.mem_of_mem_filter hx')
  · exact Or.inr (mem_dedupLast_sub rs x hx')

theorem ingest_guidUnique (world : String → FetchOutcome) (fails : Nat → Bool)
    (now url : String) (db : DB) (h : GuidUnique db.podcasts) :
    GuidUnique (fetch_and_store_podcasts world fails now url db).1.podcasts := by
  rcases ingest_cases world fails now url db with hc | ⟨feed, hc⟩
  · rw [hc]; exact h
  · rw [hc]; exact applyEpisodes_guidUnique h _

theorem ingest_urlUnique (world : String → FetchOutcome) (fails : Nat → Bool)
    (now url : String) (db : DB) (h : UrlUnique db.rss_sources) :
    UrlUnique (fetch_and_store_podcasts world fails now url db).1.rss_sources := by
  rcases ingest_cases world fails now url db with hc | ⟨feed, hc⟩
  · rw [hc]; exact h
  · rw [hc]; exact upsertSourceRows_urlUnique h url now

theorem ingest_rowsOk (world : String → FetchOutcome) (fails : Nat → Bool)
    (now url : String) (db : DB) (h : RowsOk db) :
    RowsOk (fetch_and_store_podcasts world fails now url db).1 := by
  rcases ingest_cases world fails now url db with hc | ⟨feed, hc⟩
  · rw [hc]; exact h
  · intro r hr
    rw [hc] at hr
    rcases applyEpisodes_mem _ _ r hr with h1 | h1
    · exact h r h1
    · obtain ⟨e, _, hrow⟩ := List.mem_filterMap.mp h1
      have hs := entryToRow_sound url now e r hrow
      exact ⟨hs.1, hs.2.1⟩

theorem runIngests_guidUnique :
    ∀ (ops : List IngestOp) (db : DB), GuidUnique db.podcasts →
      GuidUnique (runIngests ops db).podcasts := by
  intro ops
  induction ops with
  | nil => intro db h; exact h
  | cons o ops ih =>
    intro db h
    exact ih _ (ingest_guidUnique o.world o.fails o.now o.url db h)

theorem runIngests_urlUnique :
    ∀ (ops : List IngestOp) (db : DB), UrlUnique db.rss_sources →
      UrlUnique (runIngests ops db).rss_sources := by
  intro ops
  induction ops with
  | nil => intro db h; exact h
  | cons o ops ih =>
    intro db h
    exact ih _ (ingest_urlUnique o.world o.fails o.now o.url db h)

theorem runIngests_rowsOk :
    ∀ (ops : List IngestOp) (db : DB), RowsOk db → RowsOk (runIngests ops db) := by
  intro ops
  induction ops with
  | nil => intro db h; exact h
  | cons o ops ih =>
    intro db h
    exact ih _ (ingest_rowsOk o.world o.fails o.now o.url db h)

theorem entryToRow_none_of_noAudio (url now : String) (e : Entry)
    (h : findAudioUrl e.enclosures = none) : entryToRow url now e = none := by
  rw [entryToRow]
  cases hg : pyOrStr e.id e.guid with
  | none => rfl
  | some g =>
    dsimp only
    by_cases hge : g = ""
    · rw [if_pos hge]
    · rw [if_neg hge, h]

/-! ## Upsert filter helper lemmas -/

theorem upsert_filter_self (row : EpisodeRow) (l : List EpisodeRow) :
    (upsertEpisodeRows row l).filter (fun r => r.guid == row.guid) = [row] := by
  rw [upsertEpisodeRows, List.filter_append]
  have h1 : (l.filter (fun r => r.guid != row.guid)).filter
      (fun r => r.guid == row.guid) = [] := by
    rw [List.filter_eq_nil_iff]
    intro a ha
    have hne := (List.mem_filter.mp ha).2
    simp only [bne_iff_ne, ne_eq] at hne
    simp only [beq_iff_eq]
    exact hne
  have h2 : [row].filter (fun r => r.guid == row.guid) = [row] := by
    simp [List.filter_cons]
  rw [h1, h2, List.nil_append]

theorem upsert_filter_other (row : EpisodeRow) (l : List EpisodeRow) :
    (upsertEpisodeRows row l).filter (fun r => r.guid != row.guid) =
      l.filter (fun r => r.guid != row.guid) := by
  rw [upsertEpisodeRows, List.filter_append, List.filter_filter]
  have h : ∀ x ∈ l, ((x.guid != row.guid) && (x.guid != row.guid)) = (x.guid != row.guid) :=
    fun x _ => Bool.and_self _
  have h2 : [row].filter (fun r => r.guid != row.guid) = [] := by
    simp [List.filter_cons]
  rw [List.filter_congr h, h2, List.append_nil]

theorem upsertSrc_filter_self (url now : String) (l : List SourceRow) :
    (upsertSourceRows url now l).filter (fun s => s.url == url) = [⟨url, now⟩] := by
  rw [upsertSourceRows, List.filter_append]
  have h1 : (l.filter (fun s => s.url != url)).filter (fun s => s.url == url) = [] := by
    rw [List.filter_eq_nil_iff]
    intro a ha
    have hne := (List.mem_filter.mp ha).2
    simp only [bne_iff_ne, ne_eq] at hne
    simp only [beq_iff_eq]
    exact hne
  have h2 : [(⟨url, now⟩ : SourceRow)].filter (fun s => s.url == url) = [⟨url, now⟩] := by
    simp [List.filter_cons]
  rw [h1, h2, List.nil_append]

theorem upsertSrc_filter_other (url now : String) (l : List SourceRow) :
    (upsertSourceRows url now l).filter (fun s => s.url != url) =
      l.filter (fun s => s.url != url) := by
  rw [upsertSourceRows, List.filter_append, List.filter_filter]
  have h : ∀ x ∈ l, ((x.url != url) && (x.url != url)) = (x.url != url) :=
    fun x _ => Bool.and_self _
  have h2 : [(⟨url, now⟩ : SourceRow)].filter (fun s => s.url != url) = [] := by
    simp [List.filter_cons]
  rw [List.filter_congr h, h2, List.append_nil]

/-! ## Claim theorems -/

/-- C1: the store never holds two Episode rows with the same guid.  Across any
sequence of ingest runs from a fresh store the `podcasts` table has pairwise
distinct guids; and a `podcasts` upsert whose guid already exists replaces the
prior row in place: afterwards the rows carrying that guid are exactly the
newly ingested one (last write wins, regardless of feed or other fields), and
rows with other guids are exactly what they were. -/
theorem episode_guid_unique_upsert :
    (∀ ops : List IngestOp, GuidUnique (runIngests ops emptyDB).podcasts) ∧
    (∀ (row : EpisodeRow) (db : DB),
      (upsertEpisode row db).podcasts.filter (fun r => r.guid == row.guid) = [row] ∧
      (upsertEpisode row db).podcasts.filter (fun r => r.guid != row.guid) =
        db.podcasts.filter (fun r => r.guid != row.guid)) := by
  constructor
  · intro ops
    exact runIngests_guidUnique ops emptyDB List.Pairwise.nil
  · intro row db
    exact ⟨upsert_filter_self row db.podcasts, upsert_filter_other row db.podcasts⟩

/-- C8: the `rss_sources` table holds exactly one row per distinct feed URL.
Across any sequence of ingest runs from a fresh store its urls are pairwise
distinct; and an `rss_sources` upsert for a known URL updates that row's
`last_updated` in place: afterwards the rows carrying that url are exactly the
freshly stamped one, and rows for other urls are exactly what they were. -/
theorem source_url_unique_upsert :
    (∀ ops : List IngestOp, UrlUnique (runIngests ops emptyDB).rss_sources) ∧
    (∀ (url now : String) (db : DB),
      (upsertSource url now db).rss_sources.filter (fun s => s.url == url) = [⟨url, now⟩] ∧
      (upsertSource url now db).rss_sources.filter (fun s => s.url != url) =
        db.rss_sources.filter (fun s => s.url != url)) := by
  constructor
  · intro ops
    exact runIngests_urlUnique ops emptyDB List.Pairwise.nil
  · intro url now db
    exact ⟨upsertSrc_filter_self url now db.rss_sources,
      upsertSrc_filter_other url now db.rss_sources⟩

/-- C3: ingestion is atomic.  If the `n`-th SQL statement of an ingest run's
transaction (episode upserts followed by the source-timestamp upsert) fails,
the run returns `False` and the store is exactly what it was before the run:
no partial episode writes and no timestamp update. -/
theorem ingest_atomic (world : String → FetchOutcome) (fails : Nat → Bool)
    (now url : String) (db : DB) (size : Nat) (feed : Feed)
    (hw : world url = .ok size feed) (hs : size ≤ MAX_FEED_SIZE)
    (hb : feed.bozo = false) (n : Nat)
    (hn : n < (ingestStmts feed url now).length) (hf : fails n = true) :
    fetch_and_store_podcasts world fails now url db = (db, false) := by
  simp only [fetch_and_store_podcasts, hw]
  rw [if_neg (by omega : ¬size > MAX_FEED_SIZE), hb]
  simp only [Bool.false_eq_true, if_false]
  rw [execStmts_hasFail (ingestStmts feed url now) fails 0 n db hn
    (by rw [Nat.zero_add]; exact hf)]

/-- Witness for C3: a two-episode feed whose second upsert fails leaves the
fresh store untouched and reports failure. -/
theorem ingest_atomic_witness :
    fetch_and_store_podcasts worldTwo failSecond "2025-02-02T00:00:00" "http://g" emptyDB =
      (emptyDB, false) :=
  ingest_atomic worldTwo failSecond "2025-02-02T00:00:00" "http://g" emptyDB 200
    feedTwoEntries (by decide) (by decide) rfl 1 (by decide) rfl

/-- Counterexample for C7: the claim says a successful `ingest` returns the
count of episodes written.  Two successful runs writing different numbers of
episodes (1 and 2) both return the same value `True`, so the returned value
is a boolean, not the episode count. -/
theorem ingest_count_counterexample :
    (fetch_and_store_podcasts worldOne noFail "2025-01-01T10:00:00" "http://f" emptyDB).2
      = true ∧
    (fetch_and_store_podcasts worldTwo noFail "2025-01-01T10:00:00" "http://g" emptyDB).2
      = true ∧
    (fetch_and_store_podcasts worldOne noFail "2025-01-01T10:00:00" "http://f"
        emptyDB).1.podcasts.length = 1 ∧
    (fetch_and_store_podcasts worldTwo noFail "2025-01-01T10:00:00" "http://g"
        emptyDB).1.podcasts.length = 2 := by
  decide

/-- C7 amended: `fetch_and_store_podcasts` is a total function returning a
boolean, not a count: every call either returns `True`, or returns `False`
with the store exactly unchanged (every failure — fetch error, size-ceiling
violation, parse error, storage failure — is converted to `False`, never an
unhandled fault). -/
theorem ingest_total_boolean_result (world : String → FetchOutcome) (fails : Nat → Bool)
    (now url : String) (db : DB) :
    (fetch_and_store_podcasts world fails now url db).2 = true ∨
    ((fetch_and_store_podcasts world fails now url db).2 = false ∧
      (fetch_and_store_podcasts world fails now url db).1 = db) := by
  unfold fetch_and_store_podcasts
  cases world url with
  | fail => exact Or.inr ⟨rfl, rfl⟩
  | ok size feed =>
    dsimp only
    by_cases hs : size > MAX_FEED_SIZE
    · rw [if_pos hs]
      exact Or.inr ⟨rfl, rfl⟩
    · rw [if_neg hs]
      cases hb : feed.bozo with
      | true =>
        rw [if_pos rfl]
        exact Or.inr ⟨rfl, rfl⟩
      | false =>
        rw [if_neg Bool.false_ne_true]
        cases hex : execStmts (ingestStmts feed url now) fails 0 db with
        | none => exact Or.inr ⟨rfl, rfl⟩
        | some db' => exact Or.inl rfl

/-- Counterexample for C4: a feed that parses without a fatal error but fails
the podcast-validity check (it has no entry at all) is NOT rejected by
`fetch_and_store_podcasts`: the call reports success and still writes the
Feed Source row. -/
theorem ingest_invalid_feed_counterexample :
    (fetch_and_store_podcasts worldEmptyFeed noFail "2025-03-03T00:00:00" "http://e"
        emptyDB).2 = true ∧
    (fetch_and_store_podcasts worldEmptyFeed noFail "2025-03-03T00:00:00" "http://e"
        emptyDB).1.rss_sources = [⟨"http://e", "2025-03-03T00:00:00"⟩] := by
  decide

/-- C4 amended: `fetch_and_store_podcasts` performs no podcast-validity check.
A feed that parses without a fatal structural error but has no entry with a
qualifying audio enclosure is ingested as a success: no Episode row is
written, the Feed Source row is still upserted, and the call returns `True`
(only a fatal parse error or fetch/size failure is rejected). -/
theorem ingest_no_validity_check (world : String → FetchOutcome) (fails : Nat → Bool)
    (now url : String) (db : DB) (size : Nat) (feed : Feed)
    (hw : world url = .ok size feed) (hs : size ≤ MAX_FEED_SIZE)
    (hb : feed.bozo = false) (hnf : ∀ k, fails k = false)
    (hna : ∀ e ∈ feed.entries, findAudioUrl e.enclosures = none) :
    fetch_and_store_podcasts world fails now url db =
      (⟨db.podcasts, upsertSourceRows url now db.rss_sources⟩, true) := by
  rw [ingest_success world fails now url db size feed hw hs hb hnf]
  have hrows : feed.entries.filterMap (entryToRow url now) = [] := by
    rw [List.filterMap_eq_nil_iff]
    intro e he
    exact entryToRow_none_of_noAudio url now e (hna e he)
  rw [hrows]
  rfl

/-- Witness for C4 amended: ingesting the entry-less `emptyFeed` from a fresh
store succeeds, writes no episode, and records the source row. -/
theorem ingest_no_validity_check_witness :
    fetch_and_store_podcasts worldEmptyFeed noFail "2025-03-04T00:00:00" "http://e"
        emptyDB =
      (⟨[], [⟨"http://e", "2025-03-04T00:00:00"⟩]⟩, true) :=
  (ingest_no_validity_check worldEmptyFeed noFail "2025-03-04T00:00:00" "http://e" emptyDB
    50 emptyFeed (by decide) (by decide) rfl (fun _ => rfl)
    (by intro e he; cases he)).trans (by decide)

/-- Counterexample for C2: re-ingesting a byte-identical feed is not
idempotent on episode content.  `feedOne`'s entry carries no published date,
so each run stamps `pub_date` with that run's `datetime.now()`: after the
second call the episode rows differ from those after the first call. -/
theorem ingest_idempotent_counterexample :
    (fetch_and_store_podcasts worldOne noFail "2025-01-01T11:00:00" "http://f"
        (fetch_and_store_podcasts worldOne noFail "2025-01-01T10:00:00" "http://f"
          emptyDB).1).1.podcasts ≠
      (fetch_and_store_podcasts worldOne noFail "2025-01-01T10:00:00" "http://f"
        emptyDB).1.podcasts := by
  decide

/-- C2 amended: re-ingesting an unchanged feed is idempotent on episode
content provided every entry carries a published date (otherwise `pub_date`
is re-stamped with ingestion time).  Both calls succeed, the episode rows
after the second call equal those after the first, and the `rss_sources`
table changes only by rewriting the `last_updated` value of this feed's
row. -/
theorem ingest_idempotent_for_dated_feeds (world : String → FetchOutcome)
    (fails : Nat → Bool) (n1 n2 url : String) (db : DB) (size : Nat) (feed : Feed)
    (hw : world url = .ok size feed) (hs : size ≤ MAX_FEED_SIZE)
    (hb : feed.bozo = false) (hnf : ∀ k, fails k = false)
    (hpub : ∀ e ∈ feed.entries, e.published.isSome) :
    (fetch_and_store_podcasts world fails n1 url db).2 = true ∧
    (fetch_and_store_podcasts world fails n2 url
        (fetch_and_store_podcasts world fails n1 url db).1).2 = true ∧
    (fetch_and_store_podcasts world fails n2 url
        (fetch_and_store_podcasts world fails n1 url db).1).1.podcasts =
      (fetch_and_store_podcasts world fails n1 url db).1.podcasts ∧
    (fetch_and_store_podcasts world fails n2 url
        (fetch_and_store_podcasts world fails n1 url db).1).1.rss_sources =
      (fetch_and_store_podcasts world fails n1 url db).1.rss_sources.map
        (fun s => if s.url == url then ⟨url, n2⟩ else s) := by
  have h1 := ingest_success world fails n1 url db size feed hw hs hb hnf
  have h2 := ingest_success world fails n2 url
    ⟨applyEpisodes (feed.entries.filterMap (entryToRow url n1)) db.podcasts,
      upsertSourceRows url n1 db.rss_sources⟩ size feed hw hs hb hnf
  have hrows := filterMap_entryToRow_now_indep url n2 n1 feed.entries hpub
  refine ⟨by rw [h1], ?_, ?_, ?_⟩
  · rw [h1, h2]
  · rw [h1, h2]
    show applyEpisodes (feed.entries.filterMap (entryToRow url n2)) _ = _
    rw [hrows, applyEpisodes_idem]
  · rw [h1, h2]
    show upsertSourceRows url n2 (upsertSourceRows url n1 db.rss_sources) = _
    rw [upsertSourceRows_twice_map]

/-- Witness for C2 amended: two runs over `feedDated` (whose entry carries a
published date) at different clock readings agree on the episode rows and
only re-stamp the source row. -/
theorem ingest_idempotent_for_dated_feeds_witness :
    (fetch_and_store_podcasts worldDated noFail "2025-05-05T00:00:00" "http://d"
        emptyDB).2 = true ∧
    (fetch_and_store_podcasts worldDated noFail "2025-05-05T01:00:00" "http://d"
        (fetch_and_store_podcasts worldDated noFail "2025-05-05T00:00:00" "http://d"
          emptyDB).1).2 = true ∧
    (fetch_and_store_podcasts worldDated noFail "2025-05-05T01:00:00" "http://d"
        (fetch_and_store_podcasts worldDated noFail "2025-05-05T00:00:00" "http://d"
          emptyDB).1).1.podcasts =
      (fetch_and_store_podcasts worldDated noFail "2025-05-05T00:00:00" "http://d"
        emptyDB).1.podcasts ∧
    (fetch_and_store_podcasts worldDated noFail "2025-05-05T01:00:00" "http://d"
        (fetch_and_store_podcasts worldDated noFail "2025-05-05T00:00:00" "http://d"
          emptyDB).1).1.rss_sources =
      (fetch_and_store_podcasts worldDated noFail "2025-05-05T00:00:00" "http://d"
        emptyDB).1.rss_sources.map
        (fun s => if s.url == "http://d" then ⟨"http://d", "2025-05-05T01:00:00"⟩ else s) :=
  ingest_idempotent_for_dated_feeds worldDated noFail "2025-05-05T00:00:00"
    "2025-05-05T01:00:00" "http://d" emptyDB 80 feedDated (by decide) (by decide) rfl
    (fun _ => rfl) (by decide)

/-- Counterexample for C5: candidate generation performs no deduplication.
HTML with two identical explicit feed links yields a candidate list that
contains that URL twice, so the list is not duplicate-free. -/
theorem candidates_dedup_counterexample :
    ¬(find_podcast_rss_candidates "https://ex.com" twinLinks).Nodup := by
  decide

/-- C5 amended: candidate generation preserves first-seen order with explicit
links before the four guessed paths, but performs no deduplication: two
identical explicit feed links yield that absolute URL twice, followed by the
four guessed paths in fixed order. -/
theorem candidates_order_no_dedup :
    find_podcast_rss_candidates "https://ex.com" twinLinks =
      ["https://ex.com/a.xml", "https://ex.com/a.xml", "https://ex.com/feed",
        "https://ex.com/rss", "https://ex.com/podcast.xml", "https://ex.com/episodes.xml"] := by
  decide

/-- The `any(any(...))` expression of lines 167-171 raises `TypeError` on
every parsed feed: the inner `any` yields a boolean and the outer `any`
cannot iterate it. -/
theorem hasAudioExpr_none (feed : Feed) : hasAudioExpr feed = none := rfl

/-- Every candidate whose body is fetched is parsed and then dropped: `bozo`
or entry-less parses are not appended, and any other parse hits the
`TypeError` of lines 167-171, which the `except` at line 174 swallows. -/
theorem processCandidate_ok_parsedDropped (size : Nat) (feed : Feed) :
    processCandidate (.ok size feed) = .parsedDropped := by
  unfold processCandidate
  dsimp only
  by_cases hc : (!feed.bozo && !feed.entries.isEmpty) = true
  · rw [if_pos hc, hasAudioExpr_none]
  · rw [if_neg hc]

/-- `find_podcast_rss` never keeps a candidate: it returns `[]` on every
input. -/
theorem find_podcast_rss_empty (world : String → FetchOutcome) (url : String)
    (links : List LinkTag) : find_podcast_rss world url links = [] := by
  unfold find_podcast_rss
  rw [List.filter_eq_nil_iff]
  intro u _
  cases hw : world u with
  | fail => decide
  | ok size feed =>
    rw [processCandidate_ok_parsedDropped size feed]
    decide

/-- Counterexample for C6: in discovery an oversized candidate is NOT
"skipped silently and never validated": its body (one byte over the
15,000,000-byte ceiling, parsing to the valid `feedOne`) is fed to
`feedparser` and run through the validity logic — the loop iteration ends in
`parsedDropped` (the parse ran; the candidate then falls to the caught
`TypeError` of `any(any(...))`), not in `fetchFailed` (a pre-parse skip). -/
theorem discovery_size_ceiling_counterexample :
    processCandidate (FetchOutcome.ok (MAX_FEED_SIZE + 1) feedOne) =
      CandidateResult.parsedDropped := by
  decide

/-- C6 amended: the 15,000,000-byte ceiling is enforced only in ingestion —
`fetch_and_store_podcasts` rejects an oversized body before parsing, with no
store write.  Discovery has no size check: an oversized candidate that
fetches is parsed and run through the validity logic like any other — and,
like every candidate, it is never returned, because `any(any(...))` at lines
167-171 raises `TypeError` on every parsed candidate with entries, caught by
the per-candidate `except`, so `find_podcast_rss` always returns the empty
list. -/
theorem size_ceiling_ingestion_only (world : String → FetchOutcome) (fails : Nat → Bool)
    (now url : String) (db : DB) (size : Nat) (feed : Feed)
    (hw : world url = .ok size feed) (hbig : size > MAX_FEED_SIZE) :
    fetch_and_store_podcasts world fails now url db = (db, false) ∧
    processCandidate (.ok size feed) = .parsedDropped ∧
    ∀ (world2 : String → FetchOutcome) (url2 : String) (links : List LinkTag),
      find_podcast_rss world2 url2 links = [] := by
  refine ⟨?_, processCandidate_ok_parsedDropped size feed, ?_⟩
  · simp only [fetch_and_store_podcasts, hw]
    rw [if_pos hbig]
  · intro world2 url2 links
    exact find_podcast_rss_empty world2 url2 links

/-- Witness for C6 amended: the oversized body behind `worldBig` is rejected
by ingestion, while in discovery it is parsed-then-dropped and the discovery
result is empty. -/
theorem size_ceiling_ingestion_only_witness :
    fetch_and_store_podcasts worldBig noFail "2025-06-06T00:00:00" "https://ex.com/feed"
        emptyDB = (emptyDB, false) ∧
    processCandidate (.ok (MAX_FEED_SIZE + 1) feedOne) = .parsedDropped ∧
    find_podcast_rss worldBig "https://ex.com" [] = [] := by
  have h := size_ceiling_ingestion_only worldBig noFail "2025-06-06T00:00:00"
    "https://ex.com/feed" emptyDB (MAX_FEED_SIZE + 1) feedOne (by decide) (by decide)
  exact ⟨h.1, h.2.1, h.2.2 worldBig "https://ex.com" []⟩

/-- Counterexample for C9: the `<link>` type filter is case-sensitive
(`re.compile(r'(rss|xml|atom)')` with no `re.IGNORECASE`): a link declared
with type `APPLICATION/RSS+XML` is not extracted, so its resolved URL is
absent from the candidate list. -/
theorem link_type_case_counterexample :
    "https://ex.com/a.xml" ∉
      find_podcast_rss_candidates "https://ex.com" [⟨"APPLICATION/RSS+XML", "/a.xml"⟩] := by
  decide

/-- C9 amended: candidate generation extracts every link element whose
declared type contains `rss`, `xml`, or `atom` as a case-sensitive substring,
and resolves its href against the page URL into the candidate list (uppercase
variants such as `APPLICATION/RSS+XML` are not matched). -/
theorem link_type_extraction (url : String) (links : List LinkTag) (l : LinkTag)
    (hmem : l ∈ links) (hty : linkTypeMatches l.type = true) :
    urljoin url l.href ∈ find_podcast_rss_candidates url links := by
  unfold find_podcast_rss_candidates
  apply List.mem_append_left
  exact List.mem_map_of_mem _ (List.mem_filter.mpr ⟨hmem, hty⟩)

/-- Witness for C9 amended: a lowercase `application/rss+xml` link is
extracted and resolved to an absolute candidate URL. -/
theorem link_type_extraction_witness :
    urljoin "https://ex.com" "/a.xml" ∈
      find_podcast_rss_candidates "https://ex.com" [⟨"application/rss+xml", "/a.xml"⟩] :=
  link_type_extraction "https://ex.com" [⟨"application/rss+xml", "/a.xml"⟩]
    ⟨"application/rss+xml", "/a.xml"⟩ (List.mem_singleton.mpr rfl) (by decide)

/-- C10: every row ingestion ever writes to the `podcasts` table has a
non-empty guid and a non-empty audio URL — after any sequence of ingest runs
from a fresh store all rows satisfy this — and every row produced from an
entry takes its audio URL from an enclosure of that entry whose declared type
begins with `audio/` (and whose href is non-empty). -/
theorem podcast_rows_wellformed :
    (∀ ops : List IngestOp, ∀ r ∈ (runIngests ops emptyDB).podcasts,
      r.guid ≠ "" ∧ r.audio_url ≠ "") ∧
    (∀ (url now : String) (e : Entry) (row : EpisodeRow),
      entryToRow url now e = some row →
        ∃ enc ∈ e.enclosures, strStartsWith enc.type "audio/" = true ∧
          enc.href = row.audio_url ∧ enc.href ≠ "") := by
  constructor
  · intro ops
    exact runIngests_rowsOk ops emptyDB (fun r hr => absurd hr (List.not_mem_nil r))
  · intro url now e row h
    obtain ⟨hg, ha, enc, henc, hty, hhref⟩ := entryToRow_sound url now e row h
    exact ⟨enc, henc, hty, hhref, by rw [hhref]; exact ha⟩

/-- Witness for C10: the row written for `entryA` has non-empty guid and
audio URL, and that URL is the href of `entryA`'s `audio/mpeg` enclosure. -/
theorem podcast_rows_wellformed_witness :
    (rowOne.guid ≠ "" ∧ rowOne.audio_url ≠ "") ∧
    (∃ enc ∈ entryA.enclosures, strStartsWith enc.type "audio/" = true ∧
      enc.href = rowOne.audio_url ∧ enc.href ≠ "") :=
  ⟨podcast_rows_wellformed.1 [opOne] rowOne (by decide),
    podcast_rows_wellformed.2 "http://f" "2025-01-01T10:00:00" entryA rowOne (by decide)⟩
